import Mathlib

/-!
Shallow embedding of the StoryBoard AI canvas/graph engine
(`src/main.rs` of Abdk4Moura/storyboardai).

Geometry is embedded over an arbitrary `LinearOrderedField` (instantiated
at `ℚ` for executable state-machine claims, at `ℝ` for the physics step,
which needs a square root).  `HashMap<u64, Node>` is embedded as an
association list `List (Nat × Node α)`; iteration order of the map is the
list order (the source's iteration order is arbitrary, which the embedding
makes explicit).  Rust `f32` arithmetic is embedded as exact field
arithmetic; `egui::TextureHandle` is embedded as an abstract handle `Nat`,
and the external image decoder (`image::load_from_memory` composed with
`Context::load_texture`) as an abstract function `List Nat → Option Nat`
passed as a parameter.
-/

namespace StoryBoard

/-- Two-dimensional vector / point (`egui::Vec2` / `egui::Pos2`; the source
converts freely between the two, so the embedding uses a single type). -/
@[ext]
structure V2 (α : Type) where
  x : α
  y : α
deriving DecidableEq, Repr

/-- `NodeData` from `src/main.rs`: the closed content union of a node.
`texture : Option Nat` embeds `Option<egui::TextureHandle>` as an abstract
handle. -/
inductive NodeData where
  | concept (text : String)
  | youComResearch (query : String) (result : Option String) (is_loading : Bool)
  | agnosticAI (model : String) (prompt : String) (result : Option String) (is_loading : Bool)
  | visual (prompt : String) (texture : Option Nat) (is_loading : Bool)
  | foxitExport (status : String) (is_loading : Bool)
deriving DecidableEq, Repr

/-- The `is_loading` flag of a content value (`false` for `Concept`,
which has no flag). -/
def loadingOf : NodeData → Bool
  | .concept _ => false
  | .youComResearch _ _ l => l
  | .agnosticAI _ _ _ l => l
  | .visual _ _ l => l
  | .foxitExport _ l => l

/-- Replace only the `is_loading` flag of a content value, keeping every
other field (identity on `Concept`).  Used to express frame conditions. -/
def withLoading (b : Bool) : NodeData → NodeData
  | .concept t => .concept t
  | .youComResearch q r _ => .youComResearch q r b
  | .agnosticAI m p r _ => .agnosticAI m p r b
  | .visual p t _ => .visual p t b
  | .foxitExport st _ => .foxitExport st b

/-- The `AppMessage::Error` branch of the drain loop: clear the pending
flag of every content kind that has one; `Concept` is untouched. -/
def clearLoading : NodeData → NodeData
  | .concept t => .concept t
  | .youComResearch q r _ => .youComResearch q r false
  | .agnosticAI m p r _ => .agnosticAI m p r false
  | .visual p t _ => .visual p t false
  | .foxitExport st _ => .foxitExport st false

/-- `AppMessage` from `src/main.rs` (payload bytes as `List Nat`). -/
inductive AppMessage where
  | textResponse (id : Nat) (text : String)
  | imageResponse (id : Nat) (bytes : List Nat)
  | error (id : Nat) (err : String)
deriving DecidableEq, Repr

/-- `Node` from `src/main.rs`. -/
structure Node (α : Type) where
  id : Nat
  position : V2 α
  size : V2 α
  data : NodeData
  selected : Bool
  velocity : V2 α
deriving DecidableEq, Repr

/-- `Edge` from `src/main.rs` (`from`/`to` renamed `fromId`/`toId`:
`from` is a Lean keyword). -/
structure Edge where
  id : Nat
  fromId : Nat
  toId : Nat
deriving DecidableEq, Repr

/-- `CanvasState` from `src/main.rs`; the node `HashMap` is embedded as an
association list whose order is the map's (arbitrary) iteration order. -/
structure CanvasState (α : Type) where
  nodes : List (Nat × Node α)
  edges : List Edge
  next_id : Nat
  camera_offset : V2 α
  camera_zoom : α
  dragging_node : Option Nat
  linking_from : Option Nat
deriving DecidableEq, Repr

/-- `HashMap::get`: first entry with the given key. -/
def lookupN {β : Type} (l : List (Nat × β)) (k : Nat) : Option β :=
  match l with
  | [] => none
  | kn :: rest => if kn.1 = k then some kn.2 else lookupN rest k

/-- `HashMap::contains_key`. -/
def containsKey {β : Type} (l : List (Nat × β)) (k : Nat) : Bool :=
  (lookupN l k).isSome

/-- `HashMap::keys`. -/
def keysOf {β : Type} (l : List (Nat × β)) : List Nat :=
  l.map Prod.fst

/-- `HashMap::get_mut` followed by in-place mutation by `f`
(a no-op when the key is absent). -/
def updNodes {β : Type} (l : List (Nat × β)) (k : Nat) (f : β → β) : List (Nat × β) :=
  l.map (fun kn => if kn.1 = k then (kn.1, f kn.2) else kn)

/-- `HashMap::insert`: replace the value at an existing key, otherwise
append a fresh entry. -/
def insertA {β : Type} (l : List (Nat × β)) (k : Nat) (v : β) : List (Nat × β) :=
  if containsKey l k then l.map (fun kn => if kn.1 = k then (k, v) else kn)
  else l ++ [(k, v)]

/-- `forces.get_mut(&k).unwrap()` followed by mutation: fails (models the
`unwrap` panic) when the key is absent. -/
def updFOpt {β : Type} (l : List (Nat × β)) (k : Nat) (f : β → β) :
    Option (List (Nat × β)) :=
  if containsKey l k then some (updNodes l k f) else none

section Geometry

variable {α : Type} [LinearOrderedField α]

/-- Componentwise vector addition. -/
def vadd (a b : V2 α) : V2 α := ⟨a.x + b.x, a.y + b.y⟩

/-- Componentwise vector subtraction. -/
def vsub (a b : V2 α) : V2 α := ⟨a.x - b.x, a.y - b.y⟩

/-- Vector negation. -/
def vneg (a : V2 α) : V2 α := ⟨-a.x, -a.y⟩

/-- Vector scaled by a scalar. -/
def smul (a : V2 α) (c : α) : V2 α := ⟨a.x * c, a.y * c⟩

/-- Vector divided componentwise by a scalar. -/
def sdiv (a : V2 α) (c : α) : V2 α := ⟨a.x / c, a.y / c⟩

/-- The `world_to_screen` closure (line 403 of `src/main.rs`):
`center + (pos - camera_offset) * camera_zoom`. -/
def worldToScreen (center offset : V2 α) (zoom : α) (p : V2 α) : V2 α :=
  ⟨center.x + (p.x - offset.x) * zoom, center.y + (p.y - offset.y) * zoom⟩

/-- The `screen_to_world` closure (line 404 of `src/main.rs`):
`(pos - center) / camera_zoom + camera_offset`. -/
def screenToWorld (center offset : V2 α) (zoom : α) (p : V2 α) : V2 α :=
  ⟨(p.x - center.x) / zoom + offset.x, (p.y - center.y) / zoom + offset.y⟩

/-- Rust `f32::clamp(lo, hi)`. -/
def clampF (x lo hi : α) : α :=
  if x < lo then lo else if hi < x then hi else x

/-- `Node::new` from `src/main.rs`: size 300x450 for `AgnosticAI`,
250x300 otherwise; unselected, zero velocity. -/
def Node.new (id : Nat) (pos : V2 α) (data : NodeData) : Node α :=
  let size : V2 α := match data with
    | .agnosticAI _ _ _ _ => ⟨300, 450⟩
    | _ => ⟨250, 300⟩
  ⟨id, pos, size, data, false, ⟨0, 0⟩⟩

/-- `node.bounds().contains(p)`: the axis-aligned rectangle anchored at
`position` with extents `size`, containment inclusive on all four edges
(`emath::Rect::contains`). -/
def nodeContains (n : Node α) (p : V2 α) : Bool :=
  decide (n.position.x ≤ p.x) && decide (p.x ≤ n.position.x + n.size.x) &&
  decide (n.position.y ≤ p.y) && decide (p.y ≤ n.position.y + n.size.y)

end Geometry

section Ops

variable {α : Type} [LinearOrderedField α]

/-- `StoryBoardApp::add_node`: insert a fresh node keyed by `next_id` and
bump the counter; returns the new id as the source does. -/
def add_node (s : CanvasState α) (pos : V2 α) (data : NodeData) :
    CanvasState α × Nat :=
  let id := s.next_id
  ({ s with nodes := insertA s.nodes id (Node.new id pos data),
            next_id := id + 1 }, id)

/-- The sidebar delete (lines 321-324 of `src/main.rs`):
`nodes.remove(&id)` then `edges.retain(|e| e.from != id && e.to != id)`.
No other field is touched. -/
def delete_node (s : CanvasState α) (id : Nat) : CanvasState α :=
  { s with nodes := s.nodes.filter (fun kn => decide (kn.1 ≠ id)),
           edges := s.edges.filter (fun e => decide (e.fromId ≠ id) && decide (e.toId ≠ id)) }

/-- The sidebar Clear Canvas button (lines 343-346): clears nodes and
edges only. -/
def clear_canvas (s : CanvasState α) : CanvasState α :=
  { s with nodes := [], edges := [] }

/-- The drag-start hit-test loop (lines 422-429): iterate over the node
map, select every node whose bounds contain the world point and deselect
every other node, recording the id of the last hit node (later iterations
overwrite `clicked_id`). Returns the updated nodes and `clicked_id`. -/
def hitScan (w : V2 α) : List (Nat × Node α) → List (Nat × Node α) × Option Nat
  | [] => ([], none)
  | kn :: rest =>
      let r := hitScan w rest
      if nodeContains kn.2 w then
        ((kn.1, { kn.2 with selected := true }) :: r.1,
          match r.2 with
          | some j => some j
          | none => some kn.2.id)
      else
        ((kn.1, { kn.2 with selected := false }) :: r.1, r.2)

/-- Drag-start handling (lines 419-437): hit test at the pointer's world
point, set `dragging_node` to the hit node (if any), then complete a
pending link: when `linking_from` and `clicked_id` are both set and
distinct, push `Edge { id: next_id, from, to }` and bump `next_id`;
`linking_from` is cleared whenever both are set. -/
def dragStart (s : CanvasState α) (ptr center : V2 α) : CanvasState α :=
  let w := screenToWorld center s.camera_offset s.camera_zoom ptr
  let r := hitScan w s.nodes
  let dragging' := match r.2 with
    | some i => some i
    | none => s.dragging_node
  match s.linking_from, r.2 with
  | some fid, some tid =>
      if fid ≠ tid then
        { s with nodes := r.1,
                 edges := s.edges ++ [⟨s.next_id, fid, tid⟩],
                 next_id := s.next_id + 1,
                 dragging_node := dragging',
                 linking_from := none }
      else
        { s with nodes := r.1, dragging_node := dragging', linking_from := none }
  | _, _ => { s with nodes := r.1, dragging_node := dragging' }

/-- `response.drag_stopped()` handling (line 440). -/
def dragStop (s : CanvasState α) : CanvasState α :=
  { s with dragging_node := none }

/-- A drag delta (lines 406 and 441): pan the camera by `-delta / zoom`
when no node is being dragged, otherwise move the dragged node by
`delta / zoom` (a no-op if its id is stale). -/
def dragDelta (s : CanvasState α) (delta : V2 α) : CanvasState α :=
  match s.dragging_node with
  | none => { s with camera_offset := vsub s.camera_offset (sdiv delta s.camera_zoom) }
  | some id =>
      { s with nodes := (updNodes s.nodes id
          (fun n => { n with position := vadd n.position (sdiv delta s.camera_zoom) })) }

/-- The sidebar Create Link button (lines 334-338): when not already
linking, designate the first selected node (in iteration order) as the
link source. -/
def designateLink (s : CanvasState α) : CanvasState α :=
  if s.linking_from = none then
    match s.nodes.find? (fun kn => kn.2.selected) with
    | some kn => { s with linking_from := some kn.1 }
    | none => s
  else s

/-- The sidebar Cancel Linking button (lines 329-331). -/
def cancelLink (s : CanvasState α) : CanvasState α :=
  { s with linking_from := none }

/-- Scroll-zoom handling (lines 407-417): with a nonzero scroll delta and
the pointer hovering at `ptr`, pick factor 1.1 (up) or 0.9 (down), record
the world point under the cursor, clamp the new zoom to `[0.05, 5.0]`,
and recompute the offset so that recorded world point stays under the
cursor. -/
def scrollZoom (s : CanvasState α) (sd : α) (ptr center : V2 α) : CanvasState α :=
  if sd = 0 then s
  else
    let zf : α := if 0 < sd then 11 / 10 else 9 / 10
    let wpb := screenToWorld center s.camera_offset s.camera_zoom ptr
    let nz := clampF (s.camera_zoom * zf) (1 / 20) 5
    { s with camera_zoom := nz,
             camera_offset := ⟨wpb.x - (ptr.x - center.x) / nz,
                               wpb.y - (ptr.y - center.y) / nz⟩ }

/-- The texture stored after an `ImageResult` drain: the previous texture
`t` when the bytes fail to decode, otherwise the decoded handle
(lines 369-375). -/
def texAfter (decode : List Nat → Option Nat) (bytes : List Nat) (t : Option Nat) :
    Option Nat :=
  match decode bytes with
  | some h => some h
  | none => t

/-- One iteration of the message-drain loop (lines 354-391).  `decode`
embeds the external image pipeline (`image::load_from_memory` plus
`Context::load_texture`): `some h` is a decoded texture handle, `none` a
decode failure. -/
def drainMsg (decode : List Nat → Option Nat) (s : CanvasState α) :
    AppMessage → CanvasState α
  | .textResponse id text =>
      { s with nodes := (updNodes s.nodes id (fun n =>
          match n.data with
          | .youComResearch q _ _ => { n with data := .youComResearch q (some text) false }
          | .agnosticAI m p _ _ => { n with data := .agnosticAI m p (some text) false }
          | .foxitExport _ _ => { n with data := .foxitExport text false }
          | _ => n)) }
  | .imageResponse id bytes =>
      { s with nodes := (updNodes s.nodes id (fun n =>
          match n.data with
          | .visual p t _ => { n with data := .visual p (texAfter decode bytes t) false }
          | _ => n)) }
  | .error id _ =>
      { s with nodes := updNodes s.nodes id (fun n => { n with data := clearLoading n.data }) }

/-- A trigger-button click on a node body, as rendered by the central
panel (lines 482-557), assuming the body is drawn (zoom at least 0.4).
The Search button of a research node is rendered only when the node is
neither pending nor already holding a result; the Generate PDF button of
an export node only when not pending; the Generate buttons of the
agnostic-AI and visual nodes are rendered unconditionally.  A rendered
click sets `is_loading` and dispatches (second component `true`). -/
def trigger_click : NodeData → NodeData × Bool
  | .concept t => (.concept t, false)
  | .youComResearch q r l =>
      if l then (.youComResearch q r l, false)
      else
        match r with
        | some res => (.youComResearch q (some res) l, false)
        | none => (.youComResearch q none true, true)
  | .agnosticAI m p r _ => (.agnosticAI m p r true, true)
  | .visual p t _ => (.visual p t true, true)
  | .foxitExport st l =>
      if l then (.foxitExport st l, false) else (.foxitExport st true, true)

end Ops

/-- The content kinds whose trigger button is actually hidden while the
node is pending (or, for research, once a result is stored): freeform
text (no trigger at all), research, and export.  The agnostic-AI and
visual kinds render their Generate buttons unconditionally. -/
def gatedKind : NodeData → Bool
  | .concept _ => true
  | .youComResearch _ _ _ => true
  | .agnosticAI _ _ _ _ => false
  | .visual _ _ _ => false
  | .foxitExport _ _ => true

/-- `Vec2::length()`: `sqrt (x*x + y*y)` (`f32::hypot` in `emath`). -/
noncomputable def vlen (v : V2 ℝ) : ℝ := Real.sqrt (v.x * v.x + v.y * v.y)

/-- `Vec2::normalized()` from `emath`: the zero vector (and any vector of
non-positive length) is returned unchanged, otherwise divide by the
length. -/
noncomputable def vnormalized (v : V2 ℝ) : V2 ℝ :=
  let len := vlen v
  if len ≤ 0 then v else ⟨v.x / len, v.y / len⟩

/-- The repulsion contribution added to node `i`'s force accumulator by
node `j` in `apply_physics` (lines 233-238): direction `pos_i - pos_j`
normalized, magnitude `6000 / dist^2` with `dist` floored at 100. -/
noncomputable def repulsionForce (a b : V2 ℝ) : V2 ℝ :=
  let delta := vsub a b
  let dist := max (vlen delta) 100
  smul (vnormalized delta) (6000 / (dist * dist))

/-- The attraction force added to the `from` endpoint of an edge (and
subtracted from the `to` endpoint) in `apply_physics` (lines 242-247):
direction `to - from` normalized, magnitude `(dist - 400) * 0.02`. -/
noncomputable def attractionForce (a b : V2 ℝ) : V2 ℝ :=
  let delta := vsub b a
  let dist := vlen delta
  smul (vnormalized delta) ((dist - 400) * 0.02)

/-- The repulsion double loop of `apply_physics` (lines 230-240): for
every ordered pair of distinct node ids, index both nodes (`nodes[&i]`,
`nodes[&j]` — an `Option` failure models the Rust indexing panic) and add
the repulsion contribution to `i`'s accumulator via
`forces.get_mut(&i).unwrap()`. -/
noncomputable def repulsionPhase (s : CanvasState ℝ) (fs0 : List (Nat × V2 ℝ)) :
    Option (List (Nat × V2 ℝ)) :=
  (keysOf s.nodes).foldlM (fun fs i =>
    (keysOf s.nodes).foldlM (fun fs2 j =>
      if i = j then some fs2
      else
        match lookupN s.nodes i, lookupN s.nodes j with
        | some ni, some nj =>
            updFOpt fs2 i (fun f => vadd f (repulsionForce ni.position nj.position))
        | _, _ => none) fs) fs0

/-- The attraction loop of `apply_physics` (lines 241-249): for each
edge, if both endpoints are present, add the attraction force to the
`from` accumulator and subtract it from the `to` accumulator (both via
`get_mut(..).unwrap()`); otherwise the edge contributes nothing. -/
noncomputable def attractionPhase (s : CanvasState ℝ) (fs0 : List (Nat × V2 ℝ)) :
    Option (List (Nat × V2 ℝ)) :=
  s.edges.foldlM (fun fs2 (e : Edge) =>
    match lookupN s.nodes e.fromId, lookupN s.nodes e.toId with
    | some n1, some n2 =>
        (updFOpt fs2 e.fromId
            (fun f => vadd f (attractionForce n1.position n2.position))).bind
          (fun fs3 => updFOpt fs3 e.toId
            (fun f => vsub f (attractionForce n1.position n2.position)))
    | _, _ => some fs2) fs0

/-- The integration loop of `apply_physics` (lines 250-256): for each
node id, skip absent ids (`if let Some(node) = get_mut`) and the dragged
node, otherwise read `forces[&id]` (an `Option` failure models the index
panic) and apply `velocity = (velocity + force) * 0.8;
position += velocity`. -/
noncomputable def integrationPhase (s : CanvasState ℝ) (fsa : List (Nat × V2 ℝ)) :
    Option (List (Nat × Node ℝ)) :=
  (keysOf s.nodes).foldlM (fun ns id =>
    match lookupN ns id with
    | none => some ns
    | some _ =>
        if s.dragging_node = some id then some ns
        else
          match lookupN fsa id with
          | none => none
          | some f =>
              some (updNodes ns id (fun (n0 : Node ℝ) =>
                let v := smul (vadd n0.velocity f) 0.8
                { n0 with velocity := v, position := vadd n0.position v }))) s.nodes

/-- `StoryBoardApp::apply_physics` (lines 224-257): zero-initialise one
force accumulator per node id, run the repulsion and attraction loops,
then integrate.  Every fallible map access of the source is an `Option`
failure here. -/
noncomputable def applyPhysicsOpt (s : CanvasState ℝ) : Option (CanvasState ℝ) :=
  (repulsionPhase s ((keysOf s.nodes).map (fun id => (id, ⟨0, 0⟩)))).bind (fun fsr =>
  (attractionPhase s fsr).bind (fun fsa =>
  (integrationPhase s fsa).map (fun ns => { s with nodes := ns })))

/-- `CanvasState::default()`. -/
def initState : CanvasState ℚ :=
  { nodes := [], edges := [], next_id := 1, camera_offset := ⟨0, 0⟩,
    camera_zoom := 1, dragging_node := none, linking_from := none }

/-- `setup_demo_scene` applied to the default state: the app's initial
canvas (five nodes, four pipeline edges). -/
def demoState : CanvasState ℚ :=
  let r0 := add_node initState ⟨-450, 0⟩ (.concept "Mars Colony Documentary")
  let r1 := add_node r0.1 ⟨-150, -150⟩ (.youComResearch "Mars colony life" none false)
  let r2 := add_node r1.1 ⟨150, -150⟩
    (.agnosticAI "google/gemini-flash-1.5" "Write script based on Mars research" none false)
  let r3 := add_node r2.1 ⟨450, 0⟩ (.visual "Mars base interior" none false)
  let r4 := add_node r3.1 ⟨0, 250⟩ (.foxitExport "Ready" false)
  { r4.1 with edges := r4.1.edges ++
      [⟨1, r0.2, r1.2⟩, ⟨2, r1.2, r2.2⟩, ⟨3, r2.2, r3.2⟩, ⟨4, r3.2, r4.2⟩] }

/-- The public operations of claim C2, with their parameters. -/
inductive Op where
  | opAdd (pos : V2 ℚ) (data : NodeData)
  | opDelete (id : Nat)
  | opClear
  | opDragStart (ptr center : V2 ℚ)
  | opDragStop
  | opDragDelta (delta : V2 ℚ)
  | opDesignateLink
  | opCancelLink
  | opScroll (sd : ℚ) (ptr center : V2 ℚ)
  | opDrain (m : AppMessage)

/-- One public operation applied to a state. -/
def step (decode : List Nat → Option Nat) (s : CanvasState ℚ) : Op → CanvasState ℚ
  | .opAdd pos data => (add_node s pos data).1
  | .opDelete id => delete_node s id
  | .opClear => clear_canvas s
  | .opDragStart ptr center => dragStart s ptr center
  | .opDragStop => dragStop s
  | .opDragDelta delta => dragDelta s delta
  | .opDesignateLink => designateLink s
  | .opCancelLink => cancelLink s
  | .opScroll sd ptr center => scrollZoom s sd ptr center
  | .opDrain m => drainMsg decode s m

/-- States reachable from the app's initial canvas by public operations. -/
inductive Reachable (decode : List Nat → Option Nat) : CanvasState ℚ → Prop
  | init : Reachable decode demoState
  | next {s : CanvasState ℚ} (op : Op) :
      Reachable decode s → Reachable decode (step decode s op)

/-- Every edge's `to` endpoint is a present node id. -/
def edgesClosedTo (s : CanvasState ℚ) : Prop :=
  ∀ e ∈ s.edges, containsKey s.nodes e.toId = true

/-- Every node entry's stored `id` field equals its map key. -/
def idConsistent (s : CanvasState ℚ) : Prop :=
  ∀ kn ∈ s.nodes, (kn.2).id = kn.1

/-- An image pipeline that always fails to decode. -/
def decodeFail : List Nat → Option Nat := fun _ => none

/-- Operation sequence from the demo scene that produces a dangling edge:
select node 1 by drag-starting on it, designate it as link source, delete
it from the sidebar, then drag-start on node 2, which completes the link
from the now-deleted node 1. -/
def c2ops : List Op :=
  [.opDragStart ⟨-400, 50⟩ ⟨0, 0⟩, .opDesignateLink, .opDelete 1,
   .opDragStart ⟨-100, 0⟩ ⟨0, 0⟩]

/-- The state reached by `c2ops`. -/
def c2bad : CanvasState ℚ := c2ops.foldl (step decodeFail) demoState

/-- Deleting node 1 from the demo scene while it is both the drag target
and the pending link source. -/
def c1bad : CanvasState ℚ :=
  delete_node (designateLink (dragStart demoState ⟨-400, 50⟩ ⟨0, 0⟩)) 1

/-- A pending research node with id 7. -/
def w7node : Node ℚ :=
  Node.new 7 ⟨0, 0⟩ (.youComResearch "Mars colony life" (some "old") true)

/-- A pending visual node with id 7 and a previously stored texture
handle. -/
def w7vnode : Node ℚ :=
  Node.new 7 ⟨0, 0⟩ (.visual "Mars base interior" (some 3) true)

/-- A one-node state holding the pending research node `w7node`. -/
def s7research : CanvasState ℚ :=
  { nodes := [(7, w7node)],
    edges := [], next_id := 8, camera_offset := ⟨0, 0⟩, camera_zoom := 1,
    dragging_node := none, linking_from := none }

/-- A one-node state holding the pending visual node `w7vnode`. -/
def s7visual : CanvasState ℚ :=
  { nodes := [(7, w7vnode)],
    edges := [], next_id := 8, camera_offset := ⟨0, 0⟩, camera_zoom := 1,
    dragging_node := none, linking_from := none }

/-- Two nodes with coinciding bounds: every interior point of either lies
inside both. -/
def overlapState : CanvasState ℚ :=
  { nodes := [(1, Node.new 1 ⟨0, 0⟩ (.concept "a")), (2, Node.new 2 ⟨0, 0⟩ (.concept "b"))],
    edges := [], next_id := 3, camera_offset := ⟨0, 0⟩, camera_zoom := 1,
    dragging_node := none, linking_from := none }

/-- A single-node state for the drag-start witness. -/
def singleState : CanvasState ℚ :=
  { nodes := [(1, Node.new 1 ⟨0, 0⟩ (.concept "a"))],
    edges := [], next_id := 2, camera_offset := ⟨0, 0⟩, camera_zoom := 1,
    dragging_node := none, linking_from := none }

/-- A two-node real-coordinate state for the physics witnesses. -/
noncomputable def physState : CanvasState ℝ :=
  { nodes := [(1, Node.new 1 ⟨0, 0⟩ (.concept "a")), (2, Node.new 2 ⟨10, 0⟩ (.concept "b"))],
    edges := [], next_id := 3, camera_offset := ⟨0, 0⟩, camera_zoom := 1,
    dragging_node := none, linking_from := none }

/-! ### Association-list lemmas -/

@[simp]
theorem lookupN_nil {β : Type} (k : Nat) : lookupN ([] : List (Nat × β)) k = none := rfl

@[simp]
theorem lookupN_cons {β : Type} (kn : Nat × β) (rest : List (Nat × β)) (k : Nat) :
    lookupN (kn :: rest) k = if kn.1 = k then some kn.2 else lookupN rest k := rfl

@[simp]
theorem keysOf_nil {β : Type} : keysOf ([] : List (Nat × β)) = [] := rfl

@[simp]
theorem keysOf_cons {β : Type} (kn : Nat × β) (rest : List (Nat × β)) :
    keysOf (kn :: rest) = kn.1 :: keysOf rest := rfl

@[simp]
theorem updNodes_nil {β : Type} (k : Nat) (f : β → β) :
    updNodes ([] : List (Nat × β)) k f = [] := rfl

@[simp]
theorem updNodes_cons {β : Type} (kn : Nat × β) (rest : List (Nat × β)) (k : Nat) (f : β → β) :
    updNodes (kn :: rest) k f =
      (if kn.1 = k then (kn.1, f kn.2) else kn) :: updNodes rest k f := rfl

theorem lookupN_updNodes_self {β : Type} (l : List (Nat × β)) (k : Nat) (f : β → β) :
    lookupN (updNodes l k f) k = (lookupN l k).map f := by
  induction l with
  | nil => simp
  | cons kn rest ih =>
      by_cases h : kn.1 = k
      · simp [h]
      · simp [h, ih]

theorem lookupN_updNodes_ne {β : Type} (l : List (Nat × β)) (k k' : Nat) (f : β → β)
    (h : k' ≠ k) : lookupN (updNodes l k f) k' = lookupN l k' := by
  induction l with
  | nil => simp
  | cons kn rest ih =>
      obtain ⟨a, b⟩ := kn
      by_cases h1 : a = k
      · subst h1
        simp [Ne.symm h, ih]
      · by_cases h2 : a = k'
        · subst h2
          simp [h1]
        · simp [h1, h2, ih]

theorem keysOf_updNodes {β : Type} (l : List (Nat × β)) (k : Nat) (f : β → β) :
    keysOf (updNodes l k f) = keysOf l := by
  induction l with
  | nil => rfl
  | cons kn rest ih =>
      by_cases h : kn.1 = k <;> simp [h, ih]

theorem lookupN_isSome_of_mem_keys {β : Type} (l : List (Nat × β)) (k : Nat)
    (h : k ∈ keysOf l) : ∃ v, lookupN l k = some v := by
  induction l with
  | nil => simp at h
  | cons kn rest ih =>
      by_cases h1 : kn.1 = k
      · exact ⟨kn.2, by simp [h1]⟩
      · have h2 : k ∈ keysOf rest := by
          rcases List.mem_cons.mp (by simpa using h) with h3 | h3
          · exact absurd h3.symm h1
          · exact h3
        rcases ih h2 with ⟨v, hv⟩
        exact ⟨v, by simp [h1, hv]⟩

theorem mem_keys_of_lookupN {β : Type} (l : List (Nat × β)) (k : Nat) (v : β)
    (h : lookupN l k = some v) : k ∈ keysOf l := by
  induction l with
  | nil => simp at h
  | cons kn rest ih =>
      by_cases h1 : kn.1 = k
      · simp [h1]
      · simp only [lookupN_cons, h1, if_false] at h
        exact List.mem_cons.mpr (Or.inr (ih h))

theorem lookupN_eq_none_of_not_mem {β : Type} (l : List (Nat × β)) (k : Nat)
    (h : k ∉ keysOf l) : lookupN l k = none := by
  cases hl : lookupN l k with
  | none => rfl
  | some v => exact absurd (mem_keys_of_lookupN l k v hl) h

theorem updNodes_of_not_mem {β : Type} (l : List (Nat × β)) (k : Nat) (f : β → β)
    (h : k ∉ keysOf l) : updNodes l k f = l := by
  induction l with
  | nil => rfl
  | cons kn rest ih =>
      have h1 : ¬ kn.1 = k := by
        intro h2
        exact h (by simp [h2])
      have h2 : k ∉ keysOf rest := by
        intro h3
        exact h (by simp [h3])
      simp [h1, ih h2]

theorem updNodes_eq_self {β : Type} (l : List (Nat × β)) (k : Nat) (f : β → β)
    (hnd : (keysOf l).Nodup) (h : ∀ v, lookupN l k = some v → f v = v) :
    updNodes l k f = l := by
  induction l with
  | nil => rfl
  | cons kn rest ih =>
      obtain ⟨a, b⟩ := kn
      have hcons := List.nodup_cons.mp (by simpa using hnd)
      by_cases h1 : a = k
      · subst h1
        have hk : a ∉ keysOf rest := hcons.1
        have hfix : f b = b := h b (by simp)
        simp [hfix, updNodes_of_not_mem rest a f hk]
      · simp only [updNodes_cons, h1, if_false]
        rw [ih hcons.2 (fun v hv => h v (by simpa [h1] using hv))]

theorem containsKey_filter_ne {β : Type} (l : List (Nat × β)) (k id : Nat)
    (hc : containsKey l k = true) (hne : k ≠ id) :
    containsKey (l.filter (fun kn => decide (kn.1 ≠ id))) k = true := by
  induction l with
  | nil => simp [containsKey] at hc
  | cons kn rest ih =>
      obtain ⟨a, b⟩ := kn
      by_cases h1 : a = k
      · subst h1
        simp [List.filter_cons, hne, containsKey]
      · have hc' : containsKey rest k = true := by
          simpa [containsKey, h1] using hc
        by_cases h2 : a = id
        · simpa [List.filter_cons, h2] using ih hc'
        · have := ih hc'
          simpa [List.filter_cons, h2, containsKey, h1] using this

theorem containsKey_append_left {β : Type} (l1 l2 : List (Nat × β)) (k : Nat)
    (hc : containsKey l1 k = true) : containsKey (l1 ++ l2) k = true := by
  induction l1 with
  | nil => simp [containsKey] at hc
  | cons kn rest ih =>
      by_cases h1 : kn.1 = k
      · simp [containsKey, h1]
      · have hc' : containsKey rest k = true := by
          simpa [containsKey, h1] using hc
        simpa [containsKey, h1] using ih hc'

theorem containsKey_iff_mem {β : Type} (l : List (Nat × β)) (k : Nat) :
    containsKey l k = true ↔ k ∈ keysOf l := by
  constructor
  · intro h
    rcases Option.isSome_iff_exists.mp (by simpa [containsKey] using h) with ⟨v, hv⟩
    exact mem_keys_of_lookupN l k v hv
  · intro h
    rcases lookupN_isSome_of_mem_keys l k h with ⟨v, hv⟩
    simp [containsKey, hv]

theorem keysOf_insertA {β : Type} (l : List (Nat × β)) (k' : Nat) (v : β) :
    keysOf (insertA l k' v) =
      if containsKey l k' then keysOf l else keysOf l ++ [k'] := by
  unfold insertA
  by_cases h0 : containsKey l k'
  · simp only [h0, if_true]
    simp only [keysOf, List.map_map]
    apply List.map_congr_left
    intro kn _
    by_cases h : kn.1 = k' <;> simp [Function.comp, h]
  · simp [h0, keysOf]

theorem containsKey_insertA {β : Type} (l : List (Nat × β)) (k k' : Nat) (v : β)
    (hc : containsKey l k = true) : containsKey (insertA l k' v) k = true := by
  rw [containsKey_iff_mem] at hc ⊢
  rw [keysOf_insertA]
  by_cases h0 : containsKey l k' <;> simp [h0, hc]

theorem lookupN_filter_ne_self {β : Type} (l : List (Nat × β)) (id : Nat) :
    lookupN (l.filter (fun kn => decide (kn.1 ≠ id))) id = none := by
  induction l with
  | nil => rfl
  | cons kn rest ih =>
      obtain ⟨a, b⟩ := kn
      by_cases h : a = id
      · simpa [List.filter_cons, h] using ih
      · simpa [List.filter_cons, h] using ih

/-! ### Hit-scan and drag-start lemmas -/

theorem hitScan_fst {α : Type} [LinearOrderedField α] (w : V2 α) (l : List (Nat × Node α)) :
    (hitScan w l).1 = l.map (fun kn =>
      (kn.1, { kn.2 with selected := nodeContains kn.2 w })) := by
  induction l with
  | nil => rfl
  | cons kn rest ih =>
      cases h : nodeContains kn.2 w <;> simp [hitScan, h, ih]

theorem hitScan_snd_mem {α : Type} [LinearOrderedField α] (w : V2 α)
    (l : List (Nat × Node α)) (t : Nat) (h : (hitScan w l).2 = some t) :
    ∃ kn ∈ l, kn.2.id = t ∧ nodeContains kn.2 w = true := by
  induction l with
  | nil => simp [hitScan] at h
  | cons kn rest ih =>
      cases hh : nodeContains kn.2 w
      · simp only [hitScan, hh, Bool.false_eq_true, if_false] at h
        rcases ih h with ⟨kn', hmem, hid, hhit⟩
        exact ⟨kn', List.mem_cons_of_mem _ hmem, hid, hhit⟩
      · simp only [hitScan, hh, if_true] at h
        cases hr : (hitScan w rest).2 with
        | some j =>
            rw [hr] at h
            simp at h
            subst h
            rcases ih hr with ⟨kn', hmem, hid, hhit⟩
            exact ⟨kn', List.mem_cons_of_mem _ hmem, hid, hhit⟩
        | none =>
            rw [hr] at h
            simp at h
            exact ⟨kn, List.mem_cons_self _ _, h, hh⟩

theorem hitScan_snd_isSome {α : Type} [LinearOrderedField α] (w : V2 α)
    (l : List (Nat × Node α)) (kn : Nat × Node α) (hmem : kn ∈ l)
    (hhit : nodeContains kn.2 w = true) : ∃ t, (hitScan w l).2 = some t := by
  induction l with
  | nil => cases hmem
  | cons kn0 rest ih =>
      cases hh : nodeContains kn0.2 w
      · rcases List.mem_cons.mp hmem with heq | hmem'
        · rw [heq] at hhit
          rw [hhit] at hh
          cases hh
        · rcases ih hmem' with ⟨t, ht⟩
          exact ⟨t, by simp [hitScan, hh, ht]⟩
      · cases hr : (hitScan w rest).2 with
        | some j => exact ⟨j, by simp [hitScan, hh, hr]⟩
        | none => exact ⟨kn0.2.id, by simp [hitScan, hh, hr]⟩

theorem dragStart_nodes {α : Type} [LinearOrderedField α] (s : CanvasState α)
    (ptr center : V2 α) :
    (dragStart s ptr center).nodes =
      (hitScan (screenToWorld center s.camera_offset s.camera_zoom ptr) s.nodes).1 := by
  unfold dragStart
  cases hl : s.linking_from with
  | none => cases hr : (hitScan (screenToWorld center s.camera_offset s.camera_zoom ptr) s.nodes).2 <;> simp [hr]
  | some fid =>
      cases hr : (hitScan (screenToWorld center s.camera_offset s.camera_zoom ptr) s.nodes).2 with
      | none => simp [hr]
      | some tid => by_cases hft : fid ≠ tid <;> simp [hr, hft]

theorem dragStart_dragging {α : Type} [LinearOrderedField α] (s : CanvasState α)
    (ptr center : V2 α) :
    (dragStart s ptr center).dragging_node =
      (match (hitScan (screenToWorld center s.camera_offset s.camera_zoom ptr) s.nodes).2 with
       | some i => some i
       | none => s.dragging_node) := by
  unfold dragStart
  cases hl : s.linking_from with
  | none => cases hr : (hitScan (screenToWorld center s.camera_offset s.camera_zoom ptr) s.nodes).2 <;> simp [hr]
  | some fid =>
      cases hr : (hitScan (screenToWorld center s.camera_offset s.camera_zoom ptr) s.nodes).2 with
      | none => simp [hr]
      | some tid => by_cases hft : fid ≠ tid <;> simp [hr, hft]

theorem dragStart_edges {α : Type} [LinearOrderedField α] (s : CanvasState α)
    (ptr center : V2 α) :
    (dragStart s ptr center).edges =
      (match s.linking_from,
             (hitScan (screenToWorld center s.camera_offset s.camera_zoom ptr) s.nodes).2 with
       | some fid, some tid =>
           if fid ≠ tid then s.edges ++ [⟨s.next_id, fid, tid⟩] else s.edges
       | _, _ => s.edges) := by
  unfold dragStart
  cases hl : s.linking_from with
  | none => cases hr : (hitScan (screenToWorld center s.camera_offset s.camera_zoom ptr) s.nodes).2 <;> simp [hr]
  | some fid =>
      cases hr : (hitScan (screenToWorld center s.camera_offset s.camera_zoom ptr) s.nodes).2 with
      | none => simp [hr]
      | some tid => by_cases hft : fid ≠ tid <;> simp [hr, hft]

/-! ### Viewport lemmas -/

theorem clampF_pos {α : Type} [LinearOrderedField α] (x lo hi : α)
    (hlo : 0 < lo) (hhi : 0 < hi) : 0 < clampF x lo hi := by
  unfold clampF
  split_ifs with h1 h2
  · exact hlo
  · exact hhi
  · exact lt_of_lt_of_le hlo (not_lt.mp h1)

theorem worldToScreen_offset_fixed {α : Type} [LinearOrderedField α]
    (center ptr wpb : V2 α) (nz : α) (hnz : nz ≠ 0) :
    worldToScreen center
      ⟨wpb.x - (ptr.x - center.x) / nz, wpb.y - (ptr.y - center.y) / nz⟩ nz wpb = ptr := by
  unfold worldToScreen
  ext
  · field_simp
  · field_simp

/-! ### Claims C4 and C5: viewport transform -/

/-- C5: for every world point `p`, camera offset, positive zoom and canvas
center, `screenToWorld` inverts `worldToScreen` (exactly, in the
field-valued embedding of the `f32` arithmetic). -/
theorem c5_transform_inverse (center offset p : V2 ℚ) (zoom : ℚ) (hz : 0 < zoom) :
    screenToWorld center offset zoom (worldToScreen center offset zoom p) = p := by
  have hz' : zoom ≠ 0 := ne_of_gt hz
  unfold screenToWorld worldToScreen
  ext
  · field_simp
  · field_simp

theorem c5_transform_inverse_witness :
    (0 : ℚ) < 2 ∧
    screenToWorld (⟨640, 400⟩ : V2 ℚ) ⟨3, 4⟩ 2
        (worldToScreen (⟨640, 400⟩ : V2 ℚ) ⟨3, 4⟩ 2 ⟨5, 6⟩) = ⟨5, 6⟩ :=
  ⟨by decide, c5_transform_inverse ⟨640, 400⟩ ⟨3, 4⟩ ⟨5, 6⟩ 2 (by decide)⟩

/-- C4: after a scroll-zoom update at cursor `ptr` (with nonzero scroll
delta), the world point previously under the cursor maps back to `ptr`
under the new offset/zoom — including when the new zoom is clamped — and
with the cursor exactly at the canvas center and offset `(0,0)` the
offset stays `(0,0)`. -/
theorem c4_zoom_to_cursor (s : CanvasState ℚ) (sd : ℚ) (ptr center : V2 ℚ)
    (hsd : sd ≠ 0) :
    worldToScreen center (scrollZoom s sd ptr center).camera_offset
        (scrollZoom s sd ptr center).camera_zoom
        (screenToWorld center s.camera_offset s.camera_zoom ptr) = ptr ∧
    (ptr = center → s.camera_offset = ⟨0, 0⟩ →
      (scrollZoom s sd ptr center).camera_offset = ⟨0, 0⟩) := by
  have hnz : (0 : ℚ) <
      clampF (s.camera_zoom * (if 0 < sd then 11 / 10 else 9 / 10)) (1 / 20) 5 :=
    clampF_pos _ _ _ (by norm_num) (by norm_num)
  constructor
  · simp only [scrollZoom, hsd, if_false]
    exact worldToScreen_offset_fixed center ptr _ _ (ne_of_gt hnz)
  · intro hpc hoff
    simp only [scrollZoom, hsd, if_false, hpc, hoff, screenToWorld]
    simp

theorem c4_zoom_to_cursor_witness :
    (1 : ℚ) ≠ 0 ∧
    (worldToScreen ⟨640, 400⟩ (scrollZoom initState 1 ⟨640, 400⟩ ⟨640, 400⟩).camera_offset
        (scrollZoom initState 1 ⟨640, 400⟩ ⟨640, 400⟩).camera_zoom
        (screenToWorld ⟨640, 400⟩ initState.camera_offset initState.camera_zoom ⟨640, 400⟩)
      = ⟨640, 400⟩ ∧
    ((⟨640, 400⟩ : V2 ℚ) = ⟨640, 400⟩ → initState.camera_offset = ⟨0, 0⟩ →
      (scrollZoom initState 1 ⟨640, 400⟩ ⟨640, 400⟩).camera_offset = ⟨0, 0⟩)) :=
  ⟨by decide, c4_zoom_to_cursor initState 1 ⟨640, 400⟩ ⟨640, 400⟩ (by decide)⟩

/-! ### Claim C3: pending exclusivity of trigger buttons -/

/-- C3 (amended): for the content kinds whose trigger is gated — research
and export (and trivially freeform text) — a click while the node is
pending neither changes the content nor dispatches.  The agnostic-AI and
visual kinds are excluded: their Generate buttons are rendered even while
pending (see the counterexample). -/
theorem c3_pending_gated (d : NodeData) (hl : loadingOf d = true)
    (hg : gatedKind d = true) : trigger_click d = (d, false) := by
  cases d with
  | concept t => rfl
  | youComResearch q r l =>
      have : l = true := hl
      subst this
      rfl
  | agnosticAI m p r l => cases hg
  | visual p t l => cases hg
  | foxitExport st l =>
      have : l = true := hl
      subst this
      rfl

theorem c3_pending_gated_witness :
    loadingOf (.youComResearch "Topic" none true) = true ∧
    gatedKind (.youComResearch "Topic" none true) = true ∧
    trigger_click (.youComResearch "Topic" none true)
      = (.youComResearch "Topic" none true, false) :=
  ⟨rfl, rfl, c3_pending_gated (.youComResearch "Topic" none true) rfl rfl⟩

/-- C3 counterexample: an agnostic-AI node that is already pending
(`is_loading = true`) still dispatches again when its Generate button is
clicked — the claim's "no second dispatch can occur" fails for the
agnostic-AI (and likewise the visual) content kind. -/
theorem c3_counterexample :
    loadingOf (.agnosticAI "google/gemini-flash-1.5" "Prompt" none true) = true ∧
    (trigger_click (.agnosticAI "google/gemini-flash-1.5" "Prompt" none true)).2 = true ∧
    loadingOf (.visual "Scene" none true) = true ∧
    (trigger_click (.visual "Scene" none true)).2 = true :=
  ⟨rfl, rfl, rfl, rfl⟩

/-! ### Claim C6: Failure drain clears only the pending flag -/

/-- C6: draining `Error(id, err)` for a present node id sets that node's
pending flag to false and changes nothing else: the new content is the
old content with only the `is_loading` flag replaced (so result, status,
texture and all text fields are untouched), every other node is
untouched, and edges, counters, camera and interaction state are
untouched. -/
theorem c6_error_drain (decode : List Nat → Option Nat) (s : CanvasState ℚ)
    (idN : Nat) (err : String) (n : Node ℚ) (h : lookupN s.nodes idN = some n) :
    lookupN (drainMsg decode s (.error idN err)).nodes idN
        = some { n with data := clearLoading n.data } ∧
    clearLoading n.data = withLoading false n.data ∧
    loadingOf (clearLoading n.data) = false ∧
    (∀ j, j ≠ idN →
      lookupN (drainMsg decode s (.error idN err)).nodes j = lookupN s.nodes j) ∧
    (drainMsg decode s (.error idN err)).edges = s.edges ∧
    (drainMsg decode s (.error idN err)).next_id = s.next_id ∧
    (drainMsg decode s (.error idN err)).camera_offset = s.camera_offset ∧
    (drainMsg decode s (.error idN err)).camera_zoom = s.camera_zoom ∧
    (drainMsg decode s (.error idN err)).dragging_node = s.dragging_node ∧
    (drainMsg decode s (.error idN err)).linking_from = s.linking_from := by
  refine ⟨?_, ?_, ?_, ?_, rfl, rfl, rfl, rfl, rfl, rfl⟩
  · simp [drainMsg, lookupN_updNodes_self, h]
  · cases hd : n.data <;> rfl
  · cases hd : n.data <;> rfl
  · intro j hj
    simpa [drainMsg] using lookupN_updNodes_ne s.nodes idN j _ hj

theorem c6_error_drain_witness :
    lookupN s7research.nodes 7 = some w7node ∧
    lookupN (drainMsg decodeFail s7research (.error 7 "timeout")).nodes 7
      = some { w7node with data := clearLoading w7node.data } ∧
    clearLoading w7node.data
      = .youComResearch "Mars colony life" (some "old") false :=
  ⟨rfl, (c6_error_drain decodeFail s7research 7 "timeout" w7node rfl).1, rfl⟩

/-! ### Claim C10: ImageResult drain -/

/-- C10: draining `ImageResult(id, bytes)`: when id is present and the
node's content is the visual kind, the pending flag is cleared even when
the bytes fail to decode (the stored texture then keeps its previous
value; on success it is replaced by the decoded handle), and no other
node or field changes; when the node's content is any other kind, or the
id is absent, the whole state is unchanged. -/
theorem c10_image_drain (decode : List Nat → Option Nat) (s : CanvasState ℚ)
    (idN : Nat) (bytes : List Nat) (hnd : (keysOf s.nodes).Nodup) :
    (∀ n p t l, lookupN s.nodes idN = some n → n.data = .visual p t l →
      lookupN (drainMsg decode s (.imageResponse idN bytes)).nodes idN
          = some { n with data := .visual p (texAfter decode bytes t) false } ∧
      (∀ j, j ≠ idN →
        lookupN (drainMsg decode s (.imageResponse idN bytes)).nodes j
          = lookupN s.nodes j) ∧
      (drainMsg decode s (.imageResponse idN bytes)).edges = s.edges ∧
      (drainMsg decode s (.imageResponse idN bytes)).camera_offset = s.camera_offset ∧
      (drainMsg decode s (.imageResponse idN bytes)).camera_zoom = s.camera_zoom ∧
      (drainMsg decode s (.imageResponse idN bytes)).next_id = s.next_id ∧
      (drainMsg decode s (.imageResponse idN bytes)).dragging_node = s.dragging_node ∧
      (drainMsg decode s (.imageResponse idN bytes)).linking_from = s.linking_from) ∧
    (∀ n, lookupN s.nodes idN = some n → (∀ p t l, n.data ≠ .visual p t l) →
      drainMsg decode s (.imageResponse idN bytes) = s) ∧
    (lookupN s.nodes idN = none → drainMsg decode s (.imageResponse idN bytes) = s) := by
  refine ⟨?_, ?_, ?_⟩
  · intro n p t l h hd
    refine ⟨?_, ?_, rfl, rfl, rfl, rfl, rfl, rfl⟩
    · simp [drainMsg, lookupN_updNodes_self, h, hd]
    · intro j hj
      simpa [drainMsg] using lookupN_updNodes_ne s.nodes idN j _ hj
  · intro n h hnv
    have hfix : updNodes s.nodes idN (fun n0 =>
        match n0.data with
        | .visual p t _ => { n0 with data := .visual p (texAfter decode bytes t) false }
        | _ => n0) = s.nodes := by
      apply updNodes_eq_self s.nodes idN _ hnd
      intro v hv
      have hvn : v = n := by
        rw [h] at hv
        exact (Option.some.inj hv).symm
      subst hvn
      cases hd : v.data with
      | visual p t l => exact absurd hd (hnv p t l)
      | concept t => simp [hd]
      | youComResearch q r l => simp [hd]
      | agnosticAI m p r l => simp [hd]
      | foxitExport st l => simp [hd]
    simp [drainMsg, hfix]
  · intro h
    have hnm : idN ∉ keysOf s.nodes := by
      intro hmem
      rcases lookupN_isSome_of_mem_keys s.nodes idN hmem with ⟨v, hv⟩
      rw [h] at hv
      cases hv
    simp [drainMsg, updNodes_of_not_mem s.nodes idN _ hnm]

theorem c10_image_drain_witness :
    (keysOf s7visual.nodes).Nodup ∧
    lookupN (drainMsg decodeFail s7visual (.imageResponse 7 [0, 1])).nodes 7
      = some { w7vnode with
               data := .visual "Mars base interior" (texAfter decodeFail [0, 1] (some 3)) false } :=
  ⟨by decide,
   ((c10_image_drain decodeFail s7visual 7 [0, 1] (by decide)).1
      w7vnode "Mars base interior" (some 3) true rfl rfl).1⟩

/-! ### Claim C1: deletion cascade -/

/-- C1 (amended): deleting a present node X removes X from the node map
and removes exactly the edges incident to X, but leaves `dragging_node`
and `linking_from` unchanged — the code never clears a stale drag-target
or link-source reference on deletion (see the counterexample). -/
theorem c1_delete_node (s : CanvasState ℚ) (idX : Nat)
    (h : containsKey s.nodes idX = true) :
    (∀ e ∈ (delete_node s idX).edges, e.fromId ≠ idX ∧ e.toId ≠ idX) ∧
    (∀ e ∈ s.edges, e.fromId ≠ idX → e.toId ≠ idX → e ∈ (delete_node s idX).edges) ∧
    containsKey (delete_node s idX).nodes idX = false ∧
    (delete_node s idX).dragging_node = s.dragging_node ∧
    (delete_node s idX).linking_from = s.linking_from := by
  refine ⟨?_, ?_, ?_, rfl, rfl⟩
  · intro e he
    have := (List.mem_filter.mp he).2
    constructor
    · intro hx
      simp [hx] at this
    · intro hx
      simp [hx] at this
  · intro e he h1 h2
    exact List.mem_filter.mpr ⟨he, by simp [h1, h2]⟩
  · have hfil := lookupN_filter_ne_self s.nodes idX
    simp only [delete_node, containsKey, hfil, Option.isSome_none]

theorem c1_delete_node_witness :
    containsKey demoState.nodes 1 = true ∧
    containsKey (delete_node demoState 1).nodes 1 = false ∧
    (delete_node demoState 1).dragging_node = demoState.dragging_node ∧
    (delete_node demoState 1).linking_from = demoState.linking_from :=
  ⟨by decide,
   (c1_delete_node demoState 1 (by decide)).2.2.1,
   (c1_delete_node demoState 1 (by decide)).2.2.2.1,
   (c1_delete_node demoState 1 (by decide)).2.2.2.2⟩

/-- C1 counterexample: starting from the demo scene, drag-start on node 1
(making it the drag target), designate it as link source, then delete it
from the sidebar.  Node 1 is present before the deletion and absent
after, yet `dragging_node` and `linking_from` both still hold 1 — the
claim's "that reference is cleared" is false on the code. -/
theorem c1_counterexample :
    containsKey (designateLink (dragStart demoState ⟨-400, 50⟩ ⟨0, 0⟩)).nodes 1 = true ∧
    (designateLink (dragStart demoState ⟨-400, 50⟩ ⟨0, 0⟩)).dragging_node = some 1 ∧
    (designateLink (dragStart demoState ⟨-400, 50⟩ ⟨0, 0⟩)).linking_from = some 1 ∧
    containsKey c1bad.nodes 1 = false ∧
    c1bad.dragging_node = some 1 ∧
    c1bad.linking_from = some 1 := by
  norm_num [c1bad, demoState, initState, add_node, insertA, Node.new, containsKey,
    lookupN, keysOf, dragStart, hitScan, nodeContains, screenToWorld, designateLink,
    delete_node, List.find?, List.filter]

/-! ### Claim C7: drag-start hit handling -/

/-- C7 (amended): when a drag gesture begins at a pointer whose world
point lies in at least one node's bounds, after drag-start every node
whose bounds contain the point is selected and every node whose bounds do
not contain it is deselected (with all other node fields unchanged), and
the drag target holds the id of one of the hit nodes (the last one in
iteration order).  When several nodes overlap at the point they all end
up selected — "exactly one node is selected" fails there (see the
counterexample). -/
theorem c7_drag_start_overlap (s : CanvasState ℚ) (ptr center : V2 ℚ)
    (hhit : ∃ kn ∈ s.nodes,
      nodeContains kn.2 (screenToWorld center s.camera_offset s.camera_zoom ptr) = true) :
    (dragStart s ptr center).nodes = s.nodes.map (fun kn =>
      (kn.1, { kn.2 with selected := (nodeContains kn.2
        (screenToWorld center s.camera_offset s.camera_zoom ptr)) })) ∧
    ∃ t, (dragStart s ptr center).dragging_node = some t ∧
      ∃ kn ∈ s.nodes, kn.2.id = t ∧
        nodeContains kn.2 (screenToWorld center s.camera_offset s.camera_zoom ptr) = true := by
  obtain ⟨kn, hmem, hk⟩ := hhit
  rcases hitScan_snd_isSome (screenToWorld center s.camera_offset s.camera_zoom ptr)
    s.nodes kn hmem hk with ⟨t, ht⟩
  refine ⟨?_, t, ?_, hitScan_snd_mem _ _ t ht⟩
  · rw [dragStart_nodes, hitScan_fst]
  · rw [dragStart_dragging, ht]

theorem c7_drag_start_overlap_witness :
    (∃ kn ∈ singleState.nodes,
      nodeContains kn.2 (screenToWorld ⟨0, 0⟩ singleState.camera_offset
        singleState.camera_zoom ⟨10, 10⟩) = true) ∧
    (∃ t, (dragStart singleState ⟨10, 10⟩ ⟨0, 0⟩).dragging_node = some t ∧
      ∃ kn ∈ singleState.nodes, kn.2.id = t ∧
        nodeContains kn.2 (screenToWorld ⟨0, 0⟩ singleState.camera_offset
          singleState.camera_zoom ⟨10, 10⟩) = true) :=
  ⟨⟨(1, Node.new 1 ⟨0, 0⟩ (.concept "a")), by
      constructor
      · simp [singleState]
      · norm_num [singleState, Node.new, nodeContains, screenToWorld]⟩,
   (c7_drag_start_overlap singleState ⟨10, 10⟩ ⟨0, 0⟩
      ⟨(1, Node.new 1 ⟨0, 0⟩ (.concept "a")), by
        constructor
        · simp [singleState]
        · norm_num [singleState, Node.new, nodeContains, screenToWorld]⟩).2⟩

/-- C7 counterexample: two nodes whose bounds coincide, pointer world
point `(10,10)` inside both.  After drag-start the drag target is node 2
(the last in iteration order) but node 1 is also selected — so it is
false that exactly one node is selected and every other node is
deselected. -/
theorem c7_counterexample :
    (dragStart overlapState ⟨10, 10⟩ ⟨0, 0⟩).dragging_node = some 2 ∧
    ((lookupN (dragStart overlapState ⟨10, 10⟩ ⟨0, 0⟩).nodes 1).map Node.selected)
      = some true ∧
    ((lookupN (dragStart overlapState ⟨10, 10⟩ ⟨0, 0⟩).nodes 2).map Node.selected)
      = some true := by
  norm_num [overlapState, dragStart, hitScan, nodeContains, screenToWorld,
    Node.new, lookupN]

/-! ### Claim C8: repulsion antisymmetry -/

theorem vlen_vneg (v : V2 ℝ) : vlen (vneg v) = vlen v := by
  simp only [vlen, vneg]
  ring_nf

theorem vnormalized_vneg (v : V2 ℝ) : vnormalized (vneg v) = vneg (vnormalized v) := by
  simp only [vnormalized, vlen_vneg]
  by_cases h : vlen v ≤ 0
  · simp [h]
  · simp only [h, if_false]
    simp [vneg, neg_div]

theorem vsub_antisymm {α : Type} [LinearOrderedField α] (a b : V2 α) :
    vsub b a = vneg (vsub a b) := by
  simp only [vsub, vneg]
  ext <;> ring

theorem smul_vneg {α : Type} [LinearOrderedField α] (v : V2 α) (c : α) :
    smul (vneg v) c = vneg (smul v c) := by
  simp only [smul, vneg]
  ext <;> ring

theorem vneg_vneg {α : Type} [LinearOrderedField α] (v : V2 α) : vneg (vneg v) = v := by
  simp only [vneg]
  ext <;> ring

theorem repulsionForce_antisymm (a b : V2 ℝ) :
    repulsionForce a b = vneg (repulsionForce b a) := by
  simp only [repulsionForce]
  rw [vsub_antisymm a b, vlen_vneg, vnormalized_vneg, smul_vneg, vneg_vneg]

/-- C8: for every pair of distinct present nodes, the repulsion
contribution added to one's force accumulator from the other is the exact
negation of the converse contribution, before damping — including when
the positions coincide or are closer than the distance floor of 100
(`normalized` maps the zero vector to itself, so both contributions are
then zero). -/
theorem c8_repulsion_antisymm (s : CanvasState ℝ) (i j : Nat) (ni nj : Node ℝ)
    (hij : i ≠ j) (hi : lookupN s.nodes i = some ni) (hj : lookupN s.nodes j = some nj) :
    repulsionForce ni.position nj.position
      = vneg (repulsionForce nj.position ni.position) :=
  repulsionForce_antisymm ni.position nj.position

theorem c8_repulsion_antisymm_witness :
    (1 : Nat) ≠ 2 ∧
    lookupN physState.nodes 1 = some (Node.new 1 ⟨0, 0⟩ (.concept "a")) ∧
    lookupN physState.nodes 2 = some (Node.new 2 ⟨10, 0⟩ (.concept "b")) ∧
    repulsionForce (Node.new 1 (⟨0, 0⟩ : V2 ℝ) (.concept "a")).position
        (Node.new 2 (⟨10, 0⟩ : V2 ℝ) (.concept "b")).position
      = vneg (repulsionForce (Node.new 2 (⟨10, 0⟩ : V2 ℝ) (.concept "b")).position
        (Node.new 1 (⟨0, 0⟩ : V2 ℝ) (.concept "a")).position) :=
  ⟨by decide, rfl, rfl,
   c8_repulsion_antisymm physState 1 2 _ _ (by decide) rfl rfl⟩

/-! ### Claim C9: the physics step is total -/

theorem foldlM_option_total {γ β : Type} (P : γ → Prop) (f : γ → β → Option γ) :
    ∀ (l : List β) (a : γ), P a →
      (∀ x b, P x → b ∈ l → ∃ y, f x b = some y ∧ P y) →
      ∃ y, l.foldlM f a = some y ∧ P y := by
  intro l
  induction l with
  | nil =>
      intro a ha _
      exact ⟨a, rfl, ha⟩
  | cons b rest ih =>
      intro a ha hf
      rcases hf a b ha (List.mem_cons_self _ _) with ⟨a1, hfa, ha1⟩
      rcases ih a1 ha1 (fun x b2 hx hb2 => hf x b2 hx (List.mem_cons_of_mem _ hb2))
        with ⟨y, hy, hPy⟩
      refine ⟨y, ?_, hPy⟩
      simp [List.foldlM_cons, hfa, hy]

theorem updFOpt_eq_some {β : Type} (l : List (Nat × β)) (k : Nat) (f : β → β)
    (h : k ∈ keysOf l) : updFOpt l k f = some (updNodes l k f) := by
  simp [updFOpt, (containsKey_iff_mem l k).mpr h]

theorem keysOf_map_pair {β : Type} (ids : List Nat) (v : β) :
    keysOf (ids.map (fun id => (id, v))) = ids := by
  induction ids with
  | nil => rfl
  | cons a rest ih =>
      simp only [List.map_cons, keysOf_cons] at ih ⊢
      rw [ih]

theorem repulsionPhase_total (s : CanvasState ℝ) (fs0 : List (Nat × V2 ℝ))
    (h0 : keysOf fs0 = keysOf s.nodes) :
    ∃ fs, repulsionPhase s fs0 = some fs ∧ keysOf fs = keysOf s.nodes := by
  apply foldlM_option_total (fun fs => keysOf fs = keysOf s.nodes) _ _ _ h0
  intro fs i hfs hi
  apply foldlM_option_total (fun fs2 => keysOf fs2 = keysOf s.nodes) _ _ _ hfs
  intro fs2 j hfs2 hj
  by_cases hij : i = j
  · exact ⟨fs2, by simp [hij], hfs2⟩
  · rcases lookupN_isSome_of_mem_keys s.nodes i hi with ⟨ni, hni⟩
    rcases lookupN_isSome_of_mem_keys s.nodes j hj with ⟨nj, hnj⟩
    refine ⟨updNodes fs2 i (fun f => vadd f (repulsionForce ni.position nj.position)),
      ?_, ?_⟩
    · simp only [hij, if_false, hni, hnj]
      exact updFOpt_eq_some fs2 i _ (by rw [hfs2]; exact hi)
    · rw [keysOf_updNodes, hfs2]

theorem attractionPhase_total (s : CanvasState ℝ) (fs0 : List (Nat × V2 ℝ))
    (h0 : keysOf fs0 = keysOf s.nodes) :
    ∃ fs, attractionPhase s fs0 = some fs ∧ keysOf fs = keysOf s.nodes := by
  apply foldlM_option_total (fun fs => keysOf fs = keysOf s.nodes) _ _ _ h0
  intro fs2 e hfs2 _
  cases hfrom : lookupN s.nodes e.fromId with
  | none => exact ⟨fs2, by simp [hfrom], hfs2⟩
  | some n1 =>
      cases hto : lookupN s.nodes e.toId with
      | none => exact ⟨fs2, by simp [hfrom, hto], hfs2⟩
      | some n2 =>
          have hmf : e.fromId ∈ keysOf fs2 := by
            rw [hfs2]
            exact mem_keys_of_lookupN s.nodes e.fromId n1 hfrom
          have hmt : e.toId ∈ keysOf
              (updNodes fs2 e.fromId
                (fun f => vadd f (attractionForce n1.position n2.position))) := by
            rw [keysOf_updNodes, hfs2]
            exact mem_keys_of_lookupN s.nodes e.toId n2 hto
          refine ⟨updNodes
              (updNodes fs2 e.fromId
                (fun f => vadd f (attractionForce n1.position n2.position)))
              e.toId (fun f => vsub f (attractionForce n1.position n2.position)),
            ?_, ?_⟩
          · simp only [hfrom, hto]
            rw [updFOpt_eq_some fs2 e.fromId _ hmf]
            simp only [Option.some_bind]
            exact updFOpt_eq_some _ e.toId _ hmt
          · rw [keysOf_updNodes, keysOf_updNodes, hfs2]

theorem integrationPhase_total (s : CanvasState ℝ) (fsa : List (Nat × V2 ℝ))
    (ha : keysOf fsa = keysOf s.nodes) :
    ∃ ns, integrationPhase s fsa = some ns := by
  have := foldlM_option_total (fun _ : List (Nat × Node ℝ) => True)
    (fun ns id =>
      match lookupN ns id with
      | none => some ns
      | some _ =>
          if s.dragging_node = some id then some ns
          else
            match lookupN fsa id with
            | none => none
            | some f =>
                some (updNodes ns id (fun (n0 : Node ℝ) =>
                  let v := smul (vadd n0.velocity f) 0.8
                  { n0 with velocity := v, position := vadd n0.position v })))
    (keysOf s.nodes) s.nodes trivial ?_
  · rcases this with ⟨ns, hns, _⟩
    exact ⟨ns, hns⟩
  · intro ns id _ hid
    cases hlook : lookupN ns id with
    | none => exact ⟨ns, by simp [hlook], trivial⟩
    | some n =>
        by_cases hd : s.dragging_node = some id
        · exact ⟨ns, by simp [hlook, hd], trivial⟩
        · rcases lookupN_isSome_of_mem_keys fsa id (by rw [ha]; exact hid) with ⟨f, hf⟩
          refine ⟨updNodes ns id (fun (n0 : Node ℝ) =>
              let v := smul (vadd n0.velocity f) 0.8
              { n0 with velocity := v, position := vadd n0.position v }), ?_, trivial⟩
          simp [hlook, hd, hf]

/-! ### Claim C2: edge-endpoint invariant machinery -/

theorem mem_keysOf_of_mem {β : Type} {l : List (Nat × β)} {kn : Nat × β}
    (h : kn ∈ l) : kn.1 ∈ keysOf l :=
  List.mem_map_of_mem Prod.fst h

theorem containsKey_updNodes {β : Type} (l : List (Nat × β)) (k k' : Nat) (f : β → β) :
    containsKey (updNodes l k f) k' = containsKey l k' := by
  by_cases h : k' = k
  · subst h
    simp [containsKey, lookupN_updNodes_self, Option.isSome_map]
  · simp [containsKey, lookupN_updNodes_ne l k k' f h]

theorem keysOf_map_keyFixed {β γ : Type} (l : List (Nat × β)) (g : Nat × β → γ) :
    keysOf (l.map (fun kn => (kn.1, g kn))) = keysOf l := by
  induction l with
  | nil => rfl
  | cons kn rest ih =>
      simp only [List.map_cons, keysOf_cons] at *
      rw [ih]

theorem mem_insertA {β : Type} {l : List (Nat × β)} {k : Nat} {v : β} {kn : Nat × β}
    (h : kn ∈ insertA l k v) : kn ∈ l ∨ kn = (k, v) := by
  unfold insertA at h
  by_cases h0 : containsKey l k
  · simp only [h0, if_true] at h
    rcases List.mem_map.mp h with ⟨old, hold, heq⟩
    by_cases hk : old.1 = k
    · right
      rw [← heq, if_pos hk]
    · left
      rw [← heq, if_neg hk]
      exact hold
  · simp only [h0, if_false] at h
    rcases List.mem_append.mp h with h1 | h1
    · exact Or.inl h1
    · right
      simpa using h1

theorem idConsistent_updNodes (l : List (Nat × Node ℚ)) (k : Nat)
    (f : Node ℚ → Node ℚ) (hf : ∀ v, (f v).id = v.id)
    (h : ∀ kn ∈ l, (kn.2).id = kn.1) :
    ∀ kn ∈ updNodes l k f, (kn.2).id = kn.1 := by
  intro kn hkn
  rcases List.mem_map.mp hkn with ⟨old, hold, heq⟩
  by_cases hk : old.1 = k
  · rw [← heq, if_pos hk]
    show (f old.2).id = old.1
    rw [hf old.2]
    exact h old hold
  · rw [← heq, if_neg hk]
    exact h old hold

theorem reachable_foldl (decode : List Nat → Option Nat) (ops : List Op)
    (s : CanvasState ℚ) (h : Reachable decode s) :
    Reachable decode (ops.foldl (step decode) s) := by
  induction ops generalizing s with
  | nil => exact h
  | cons op rest ih => exact ih _ (Reachable.next op h)

theorem invC2_step (decode : List Nat → Option Nat) (s : CanvasState ℚ) (op : Op)
    (h1 : idConsistent s) (h2 : edgesClosedTo s) :
    idConsistent (step decode s op) ∧ edgesClosedTo (step decode s op) := by
  cases op with
  | opAdd pos data =>
      simp only [step, add_node]
      constructor
      · intro kn hkn
        rcases mem_insertA hkn with hold | hnew
        · exact h1 kn hold
        · rw [hnew]
          rfl
      · intro e he
        exact containsKey_insertA _ _ _ _ (h2 e he)
  | opDelete id =>
      simp only [step, delete_node]
      constructor
      · intro kn hkn
        exact h1 kn (List.mem_filter.mp hkn).1
      · intro e he
        have hmem := (List.mem_filter.mp he).1
        have hpred := (List.mem_filter.mp he).2
        have hto : e.toId ≠ id := by
          simp only [Bool.and_eq_true, decide_eq_true_eq] at hpred
          exact hpred.2
        exact containsKey_filter_ne s.nodes e.toId id (h2 e hmem) hto
  | opClear =>
      simp only [step, clear_canvas]
      constructor
      · intro kn hkn
        cases hkn
      · intro e he
        cases he
  | opDragStart ptr center =>
      simp only [step]
      have hnodes := dragStart_nodes s ptr center
      have hkeys : keysOf (dragStart s ptr center).nodes = keysOf s.nodes := by
        rw [hnodes, hitScan_fst, keysOf_map_keyFixed]
      have hck : ∀ k, containsKey s.nodes k = true →
          containsKey (dragStart s ptr center).nodes k = true := by
        intro k hk
        rw [containsKey_iff_mem, hkeys, ← containsKey_iff_mem]
        exact hk
      constructor
      · intro kn hkn
        rw [hnodes, hitScan_fst] at hkn
        rcases List.mem_map.mp hkn with ⟨old, hold, heq⟩
        rw [← heq]
        exact h1 old hold
      · intro e he
        rw [dragStart_edges] at he
        cases hl : s.linking_from with
        | none =>
            simp only [hl] at he
            exact hck e.toId (h2 e he)
        | some fid =>
            cases hr : (hitScan (screenToWorld center s.camera_offset s.camera_zoom ptr)
                s.nodes).2 with
            | none =>
                simp only [hl, hr] at he
                exact hck e.toId (h2 e he)
            | some tid =>
                simp only [hl, hr] at he
                by_cases hft : fid ≠ tid
                · rw [if_pos hft] at he
                  rcases List.mem_append.mp he with hold | hnew
                  · exact hck e.toId (h2 e hold)
                  · have hee : e = ⟨s.next_id, fid, tid⟩ := by simpa using hnew
                    rcases hitScan_snd_mem _ _ tid hr with ⟨kn, hkn, hid, _⟩
                    have hkt : kn.1 = tid := by
                      rw [← hid]
                      exact (h1 kn hkn).symm
                    apply hck
                    rw [hee]
                    show containsKey s.nodes tid = true
                    rw [containsKey_iff_mem, ← hkt]
                    exact mem_keysOf_of_mem hkn
                · rw [if_neg hft] at he
                  exact hck e.toId (h2 e he)
  | opDragStop =>
      exact ⟨h1, h2⟩
  | opDragDelta delta =>
      simp only [step]
      cases hd : s.dragging_node with
      | none =>
          simp only [dragDelta, hd]
          exact ⟨h1, h2⟩
      | some id =>
          simp only [dragDelta, hd]
          constructor
          · unfold idConsistent
            dsimp only
            intro kn hkn
            refine idConsistent_updNodes s.nodes id _ ?_ h1 kn hkn
            intro v
            rfl
          · intro e he
            rw [containsKey_updNodes]
            exact h2 e he
  | opDesignateLink =>
      simp only [step]
      have hn : (designateLink s).nodes = s.nodes := by
        unfold designateLink
        by_cases h0 : s.linking_from = none
        · cases hf : s.nodes.find? (fun kn => kn.2.selected) <;> simp [h0, hf]
        · simp [h0]
      have he : (designateLink s).edges = s.edges := by
        unfold designateLink
        by_cases h0 : s.linking_from = none
        · cases hf : s.nodes.find? (fun kn => kn.2.selected) <;> simp [h0, hf]
        · simp [h0]
      constructor
      · intro kn hkn
        rw [hn] at hkn
        exact h1 kn hkn
      · intro e hee
        rw [he] at hee
        rw [hn]
        exact h2 e hee
  | opCancelLink =>
      exact ⟨h1, h2⟩
  | opScroll sd ptr center =>
      simp only [step]
      have hn : (scrollZoom s sd ptr center).nodes = s.nodes := by
        unfold scrollZoom
        split_ifs <;> rfl
      have he : (scrollZoom s sd ptr center).edges = s.edges := by
        unfold scrollZoom
        split_ifs <;> rfl
      constructor
      · intro kn hkn
        rw [hn] at hkn
        exact h1 kn hkn
      · intro e hee
        rw [he] at hee
        rw [hn]
        exact h2 e hee
  | opDrain m =>
      simp only [step]
      cases m with
      | textResponse id text =>
          simp only [drainMsg]
          constructor
          · unfold idConsistent
            dsimp only
            intro kn hkn
            refine idConsistent_updNodes s.nodes id _ ?_ h1 kn hkn
            intro v
            cases hv : v.data <;> simp [hv]
          · intro e he
            rw [containsKey_updNodes]
            exact h2 e he
      | imageResponse id bytes =>
          simp only [drainMsg]
          constructor
          · unfold idConsistent
            dsimp only
            intro kn hkn
            refine idConsistent_updNodes s.nodes id _ ?_ h1 kn hkn
            intro v
            cases hv : v.data <;> simp [hv]
          · intro e he
            rw [containsKey_updNodes]
            exact h2 e he
      | error id err =>
          simp only [drainMsg]
          constructor
          · unfold idConsistent
            dsimp only
            intro kn hkn
            refine idConsistent_updNodes s.nodes id _ ?_ h1 kn hkn
            intro v
            rfl
          · intro e he
            rw [containsKey_updNodes]
            exact h2 e he

/-- C2 (amended): in every state reachable from the app's initial canvas
by the public operations, every edge's to-id references a present node.
The same is false of from-ids: completing a link whose designated source
was deleted in the meantime pushes an edge whose from-id is absent (see
the counterexample), so the two-endpoint invariant claimed does not hold
on the code. -/
theorem c2_reachable_to_present (decode : List Nat → Option Nat)
    (s : CanvasState ℚ) (h : Reachable decode s) : edgesClosedTo s := by
  have hmain : idConsistent s ∧ edgesClosedTo s := by
    induction h with
    | init =>
        constructor
        · show ∀ kn ∈ demoState.nodes, (kn.2).id = kn.1
          decide
        · show ∀ e ∈ demoState.edges, containsKey demoState.nodes e.toId = true
          decide
    | next op hprev ih => exact invC2_step _ _ op ih.1 ih.2
  exact hmain.2

theorem c2_reachable_to_present_witness :
    Reachable decodeFail demoState ∧ edgesClosedTo demoState :=
  ⟨Reachable.init,
   c2_reachable_to_present decodeFail demoState Reachable.init⟩

/-- C2 counterexample: from the demo scene, drag-start on node 1,
designate it as link source, delete it, then drag-start on node 2.  The
final state is reachable by public operations, holds the edge
`{ id := 6, from := 1, to := 2 }`, yet node 1 is no longer present — an
edge in the edge list references a node id that is not in the node
map. -/
theorem c2_counterexample :
    Reachable decodeFail c2bad ∧
    (⟨6, 1, 2⟩ : Edge) ∈ c2bad.edges ∧
    lookupN c2bad.nodes 1 = none := by
  refine ⟨reachable_foldl decodeFail c2ops demoState Reachable.init, ?_, ?_⟩
  · norm_num [c2bad, c2ops, demoState, initState, add_node, insertA, Node.new,
      containsKey, lookupN, keysOf, step, dragStart, hitScan, nodeContains,
      screenToWorld, designateLink, delete_node, List.find?, List.filter]
  · norm_num [c2bad, c2ops, demoState, initState, add_node, insertA, Node.new,
      containsKey, lookupN, keysOf, step, dragStart, hitScan, nodeContains,
      screenToWorld, designateLink, delete_node, List.find?, List.filter]

/-- C9: one physics step is a total function on every canvas state: no
map access fails — dangling edges contribute no attraction, a stale
`dragging_node` causes no failure, and every force-accumulator access
succeeds because the accumulator is keyed by exactly the current node
ids. -/
theorem c9_physics_total (s : CanvasState ℝ) : ∃ t, applyPhysicsOpt s = some t := by
  rcases repulsionPhase_total s ((keysOf s.nodes).map (fun id => (id, ⟨0, 0⟩)))
    (keysOf_map_pair _ _) with ⟨fs1, hfs1, hk1⟩
  rcases attractionPhase_total s fs1 hk1 with ⟨fs2, hfs2, hk2⟩
  rcases integrationPhase_total s fs2 hk2 with ⟨ns, hns⟩
  exact ⟨{ s with nodes := ns }, by
    simp [applyPhysicsOpt, hfs1, hfs2, hns]⟩

end StoryBoard
